import Mathlib

/-!
Verification of the `gut` content-addressable object store (`libgut.py`).

The embedding models byte strings as `List Nat` (each element a byte value),
filesystem state as finite lists of directories and files, and the Python
string/bytes primitives (`find`, slicing, `int`) with their exact semantics
(negative indices, `-1` on failed find, whitespace-tolerant integer parse).
`zlib.compress`/`zlib.decompress` and the SHA-1 digest are external library
calls and appear as abstract function parameters.
-/

deriving instance DecidableEq for Except

/-- A byte string: list of byte values. -/
abbrev Bytes := List Nat

/-- ASCII bytes of a literal string. -/
def strBytes (s : String) : Bytes := s.toList.map (fun c => c.toNat)

/-- Normalise a Python slice/find index against a length: negative indices
count from the end (clamped at 0), positive ones are clamped at `len`. -/
def pySliceNorm (len : Nat) (i : Int) : Nat :=
  if i < 0 then ((len : Int) + i).toNat else min i.toNat len

/-- Python slice `l[a:b]` with full negative-index semantics. -/
def pySlice (l : Bytes) (a b : Int) : Bytes :=
  (l.take (pySliceNorm l.length b)).drop (pySliceNorm l.length a)

/-- Python slice `l[a:]`. -/
def pySliceFrom (l : Bytes) (a : Int) : Bytes :=
  pySlice l a (l.length : Int)

/-- Python `bytes.find(b, start)`: index of the first occurrence of byte `b`
at or after `start`, or `-1` when absent. -/
def bytesFind (l : Bytes) (b : Nat) (start : Int) : Int :=
  match List.findIdx? (fun c => c = b) (l.drop (pySliceNorm l.length start)) with
  | some j => ((pySliceNorm l.length start + j : Nat) : Int)
  | none => -1

/-- ASCII whitespace as recognised by Python `int()` on an ASCII-decoded
string (space, `\t`..`\r`, FS..US). -/
def isPySpace (c : Nat) : Bool := c = 32 || (9 ≤ c && c ≤ 13) || (28 ≤ c && c ≤ 31)

/-- Value of a nonempty all-digit byte string, else `none`.
(Underscore digit grouping of Python numerals is not modelled.) -/
def digitsVal (ds : Bytes) : Option Int :=
  if ds ≠ [] ∧ ∀ c ∈ ds, 48 ≤ c ∧ c ≤ 57 then
    some (ds.foldl (fun a c => a * 10 + ((c : Int) - 48)) 0)
  else none

/-- Strip Python whitespace from both ends. -/
def stripPySpaces (s : Bytes) : Bytes :=
  (List.dropWhile isPySpace (List.dropWhile isPySpace s).reverse).reverse

/-- Python `int(raw.decode("ascii"))`: `none` models the exception path
(a byte ≥ 128 fails the ASCII decode; a malformed numeral fails `int`). -/
def pyIntOfBytes (s : Bytes) : Option Int :=
  if s.any (fun c => 128 ≤ c) then none
  else
    match stripPySpaces s with
    | [] => none
    | c :: ds =>
      if c = 43 then digitsVal ds
      else if c = 45 then (digitsVal ds).map (fun n => -n)
      else digitsVal (c :: ds)

/-! ## Filesystem and repository model -/

/-- Filesystem snapshot: which paths (component lists) are directories, and
the contents of each regular file. -/
structure FS where
  dirs : List (List String)
  files : List (List String × Bytes)
deriving DecidableEq

/-- os.path.isdir. -/
def FS.isDir (fs : FS) (p : List String) : Bool := fs.dirs.any (fun q => q = p)

/-- Contents of the regular file at `p`, if any. -/
def FS.content (fs : FS) (p : List String) : Option Bytes :=
  (fs.files.find? (fun q => q.1 = p)).map (fun q => q.2)

/-- os.path.isfile. -/
def FS.isFile (fs : FS) (p : List String) : Bool := (fs.content p).isSome

/-- os.path.exists (only files and directories are modelled). -/
def path_exists (fs : FS) (p : List String) : Bool := fs.isDir p || fs.isFile p

/-- `GitRepository`: worktree and `.git` metadata directory. -/
structure GitRepository where
  worktree : List String
  gitdir : List String
deriving DecidableEq

/-- The exceptions and error outcomes of the store. -/
inductive GutError where
  /-- `Exception(f"Not a directory {path}")` raised by `repo_dir`. -/
  | notADirectory (path : List String)
  /-- TypeError raised by `os.path.isfile(None)` when `repo_file` returned
  `None` (missing fan-out directory). -/
  | typeErrorIsfileNone
  /-- UnicodeDecodeError / ValueError from `raw[x:y].decode("ascii")` / `int`. -/
  | valueErrorIntParse
  /-- `Exception(f"malformed object {sha}: bad length")`. -/
  | malformedObject (sha : String)
  /-- `Exception(f"unknown type {fmt} for object {sha}")`. -/
  | unknownObjectType (fmt : Bytes) (sha : String)
  /-- UnicodeDecodeError raised while BUILDING that message: the f-string
  evaluates `fmt.decode("ascii")` before the raise, so an unrecognized tag
  holding a byte ≥ 128 raises the decode error instead, without the
  address. -/
  | unicodeDecodeErrorFmt
  /-- Truncated or malformed tree payload (spec: `TruncatedTree`). -/
  | truncatedTree
  /-- Malformed commit/tag key-value payload. -/
  | kvlmMalformed
  /-- `Exception(f"Not a Git repository {path}")`. -/
  | notAGitRepository (path : List String)
  /-- `Exception("Configuration file missing")`. -/
  | configMissing
  /-- configparser `NoSectionError` / `int` failure on the version field. -/
  | configError
  /-- `Exception("Unsupported repositoryformatversion")`. -/
  | unsupportedVersion
  /-- `Exception("No git directory")` raised by `repo_find`. -/
  | noGitDirectory
deriving DecidableEq

/-- `repo_path(repo, *path)`: join under the gitdir. -/
def repo_path (repo : GitRepository) (path : List String) : List String :=
  repo.gitdir ++ path

/-- `repo_dir(repo, *path)` with `mkdir=False`: return the path when it is an
existing directory, `None` when absent, raise when it exists as a non-directory. -/
def repo_dir (fs : FS) (repo : GitRepository) (path : List String) :
    Except GutError (Option (List String)) :=
  let p := repo_path repo path
  if path_exists fs p then
    if fs.isDir p then .ok (some p) else .error (.notADirectory p)
  else .ok none

/-- `repo_file(repo, *path)` with `mkdir=False`: the full path when the parent
directory exists, `None` otherwise (the function body's `if` falls through and
Python returns `None`). -/
def repo_file (fs : FS) (repo : GitRepository) (path : List String) :
    Except GutError (Option (List String)) :=
  match repo_dir fs repo path.dropLast with
  | .error e => .error e
  | .ok (some _) => .ok (some (repo_path repo path))
  | .ok none => .ok none

/-! ## Typed object model

The dispatch in `object_read` names the classes `GitCommit`, `GitTree`,
`GitTag`, `GitBlob`; their definitions are not part of `libgut.py` as given,
so their payload codecs are modelled from the spec (section 4.3). -/

/-- The four object kinds of the dispatch table. -/
inductive ObjKind where
  | blob
  | tree
  | commit
  | tag
deriving DecidableEq

/-- One tree entry: file mode, name, 20-byte binary child address. -/
structure TreeEntry where
  mode : Bytes
  name : Bytes
  addr : Bytes
deriving DecidableEq

/-- In-memory typed object value (the observable fields of the four variants). -/
inductive GitObjectV where
  | blob (data : Bytes)
  | tree (entries : List TreeEntry)
  | commit (headers : List (Bytes × Bytes)) (message : Bytes)
  | tag (headers : List (Bytes × Bytes)) (message : Bytes)
deriving DecidableEq

/-- Kind of a typed object value. -/
def objKind : GitObjectV → ObjKind
  | .blob _ => .blob
  | .tree _ => .tree
  | .commit _ _ => .commit
  | .tag _ _ => .tag

/-- Modelled from the spec: parse one tree entry
`mode-string SPACE name NUL 20-byte-binary-address`; scanning for the space,
then the NUL, then consuming exactly 20 raw bytes; fails (`TruncatedTree`)
when fewer than 20 bytes remain for the address. -/
def tree_parse_one (b : Bytes) : Option (TreeEntry × Bytes) :=
  match List.findIdx? (fun c => c = 32) b with
  | none => none
  | some i =>
    let mode := b.take i
    let rest1 := b.drop (i + 1)
    match List.findIdx? (fun c => c = 0) rest1 with
    | none => none
    | some j =>
      let name := rest1.take j
      let rest2 := rest1.drop (j + 1)
      if rest2.length < 20 then none
      else some (⟨mode, name, rest2.take 20⟩, rest2.drop 20)

/-- Modelled from the spec: repeatedly parse tree entries until the payload is
exhausted. Fuel bounds the recursion; each entry consumes at least one byte,
so `b.length` fuel suffices. -/
def tree_parse_go (fuel : Nat) (b : Bytes) : Option (List TreeEntry) :=
  match fuel with
  | 0 => if b = [] then some [] else none
  | fuel + 1 =>
    if b = [] then some []
    else
      match tree_parse_one b with
      | none => none
      | some (e, rest) => (tree_parse_go fuel rest).map (fun es => e :: es)

/-- Modelled from the spec: tree payload parse. -/
def tree_parse (b : Bytes) : Option (List TreeEntry) := tree_parse_go b.length b

/-- Modelled from the spec: parse the line-oriented key/value header block of
a commit or tag payload, terminated by a blank line, then the message; values
may contain embedded spaces (everything after the first space of the line);
repeated keys keep their original order (the accumulator is the ordered list
of key/value lines). -/
def kvlm_parse_go (fuel : Nat) (b : Bytes) : Option (List (Bytes × Bytes) × Bytes) :=
  match fuel with
  | 0 => none
  | fuel + 1 =>
    match List.findIdx? (fun c => c = 10) b with
    | none => none
    | some i =>
      if i = 0 then some ([], b.drop 1)
      else
        let line := b.take i
        match List.findIdx? (fun c => c = 32) line with
        | none => none
        | some j =>
          (kvlm_parse_go fuel (b.drop (i + 1))).map
            (fun r => ((line.take j, line.drop (j + 1)) :: r.1, r.2))

/-- Modelled from the spec: commit/tag payload parse. -/
def kvlm_parse (b : Bytes) : Option (List (Bytes × Bytes) × Bytes) :=
  kvlm_parse_go (b.length + 1) b

/-- The constructor call `c(raw[y+1:])` of `object_read`: `GitObject.__init__`
passes the payload to the variant's `deserialize`. The variant codecs are
modelled from the spec (the class bodies are not in `libgut.py`). -/
def GitObject_new (k : ObjKind) (data : Bytes) : Except GutError GitObjectV :=
  match k with
  | .blob => .ok (.blob data)
  | .tree =>
    match tree_parse data with
    | some es => .ok (.tree es)
    | none => .error .truncatedTree
  | .commit =>
    match kvlm_parse data with
    | some r => .ok (.commit r.1 r.2)
    | none => .error .kvlmMalformed
  | .tag =>
    match kvlm_parse data with
    | some r => .ok (.tag r.1 r.2)
    | none => .error .kvlmMalformed

/-! ## Serialization (spec section 4.3) -/

/-- Modelled from the spec: left-pad a mode string with ASCII zeros to the
canonical 6-character width. -/
def pad6 (mode : Bytes) : Bytes := List.replicate (6 - mode.length) 48 ++ mode

/-- Modelled from the spec: sort key of a tree entry — directories (mode
beginning `04`) sort as if the name had a trailing separator `/`. -/
def entrySortKey (e : TreeEntry) : Bytes :=
  if e.mode.take 2 = [48, 52] then e.name ++ [47] else e.name

/-- Lexicographic byte-string order. -/
def bytesLe : Bytes → Bytes → Bool
  | [], _ => true
  | _ :: _, [] => false
  | a :: as, b :: bs => if a < b then true else if a = b then bytesLe as bs else false

/-- Order on tree entries by sort key. -/
def entryLe (a b : TreeEntry) : Bool := bytesLe (entrySortKey a) (entrySortKey b)

/-- Insertion into a sorted entry list. -/
def insertEntry (e : TreeEntry) : List TreeEntry → List TreeEntry
  | [] => [e]
  | f :: fs => if entryLe e f then e :: f :: fs else f :: insertEntry e fs

/-- Insertion sort of tree entries by the fixed comparison rule. -/
def sortEntries : List TreeEntry → List TreeEntry
  | [] => []
  | e :: es => insertEntry e (sortEntries es)

/-- The entry list is already in the canonical order. -/
def treeOrdered : List TreeEntry → Bool
  | [] => true
  | [_] => true
  | a :: b :: es => entryLe a b && treeOrdered (b :: es)

/-- Modelled from the spec: serialize one tree entry. -/
def tree_serialize_entry (e : TreeEntry) : Bytes :=
  pad6 e.mode ++ 32 :: (e.name ++ 0 :: e.addr)

/-- Serialize a list of tree entries in order. -/
def tree_serialize_entries (es : List TreeEntry) : Bytes :=
  List.foldr (fun e acc => tree_serialize_entry e ++ acc) [] es

/-- Modelled from the spec: tree payload serialization emits the entries in
the defined sort order. -/
def tree_serialize (es : List TreeEntry) : Bytes :=
  tree_serialize_entries (sortEntries es)

/-- Modelled from the spec: commit/tag serialization reproduces the original
key order, one line per value, then the blank line and the message. -/
def kvlm_serialize (hs : List (Bytes × Bytes)) (msg : Bytes) : Bytes :=
  List.foldr (fun kv acc => kv.1 ++ 32 :: (kv.2 ++ 10 :: acc)) (10 :: msg) hs

/-- Modelled from the spec: `serialize()` of each variant. -/
def gitobj_serialize : GitObjectV → Bytes
  | .blob d => d
  | .tree es => tree_serialize es
  | .commit hs m => kvlm_serialize hs m
  | .tag hs m => kvlm_serialize hs m

/-- Well-formedness of one header line: nonempty key without space or
newline, value without newline. -/
def kvValid (kv : Bytes × Bytes) : Bool :=
  decide (kv.1 ≠ []) && kv.1.all (fun c => c ≠ 32 && c ≠ 10) &&
    kv.2.all (fun c => c ≠ 10)

/-- Well-formedness of one tree entry: canonical 6-character (or longer)
space-free mode, NUL-free name, exactly 20 address bytes. -/
def entryValid (e : TreeEntry) : Bool :=
  decide (6 ≤ e.mode.length) && e.mode.all (fun c => c ≠ 32) &&
    e.name.all (fun c => c ≠ 0) && decide (e.addr.length = 20)

/-- Canonical well-formed object values: the domain of the round-trip law. -/
def gitobj_valid : GitObjectV → Bool
  | .blob _ => true
  | .tree es => es.all entryValid && treeOrdered es
  | .commit hs _ => hs.all kvValid
  | .tag hs _ => hs.all kvValid

/-! ## `object_read` -/

/-- Body of `object_read` once the stored bytes are decompressed: locate the
space and the NUL, parse and validate the declared size, dispatch on the type
tag. -/
def object_read_stream (raw : Bytes) (sha : String) : Except GutError GitObjectV :=
  let x := bytesFind raw 32 0
  let fmt := pySlice raw 0 x
  let y := bytesFind raw 0 x
  match pyIntOfBytes (pySlice raw x y) with
  | none => .error .valueErrorIntParse
  | some size =>
    if size ≠ (raw.length : Int) - y - 1 then .error (.malformedObject sha)
    else
      if fmt = strBytes "commit" then GitObject_new .commit (pySliceFrom raw (y + 1))
      else if fmt = strBytes "tree" then GitObject_new .tree (pySliceFrom raw (y + 1))
      else if fmt = strBytes "tag" then GitObject_new .tag (pySliceFrom raw (y + 1))
      else if fmt = strBytes "blob" then GitObject_new .blob (pySliceFrom raw (y + 1))
      else if fmt.any (fun c => 128 ≤ c) then .error .unicodeDecodeErrorFmt
      else .error (.unknownObjectType fmt sha)

/-- `object_read(repo, sha)`. `decomp` abstracts `zlib.decompress`. The
Python `None` result is `.ok none`; `os.path.isfile(None)` (when `repo_file`
returned `None`) raises a TypeError. -/
def object_read (decomp : Bytes → Bytes) (fs : FS) (repo : GitRepository)
    (sha : String) : Except GutError (Option GitObjectV) :=
  match repo_file fs repo ["objects", sha.take 2, sha.drop 2] with
  | .error e => .error e
  | .ok none => .error .typeErrorIsfileNone
  | .ok (some path) =>
    match fs.content path with
    | none => .ok none
    | some compressed =>
      match object_read_stream (decomp compressed) sha with
      | .error e => .error e
      | .ok o => .ok (some o)

/-! ## Repository construction and `repo_find` -/

/-- Version check tail of `GitRepository.__init__`: skipped under `force`;
otherwise `int(conf.get("core", "repositoryformatversion"))` must yield 0.
`rv` abstracts configparser plus `int` — it receives the bytes of the config
file that was read (or `none` when nothing was read) and returns the parsed
version, `none` modelling the exception path. -/
def GitRepository_vers (rv : Option Bytes → Option Int) (conf : Option Bytes)
    (path : List String) (force : Bool) : Except GutError GitRepository :=
  if force then .ok ⟨path, path ++ [".git"]⟩
  else
    match rv conf with
    | none => .error .configError
    | some v => if v ≠ 0 then .error .unsupportedVersion else .ok ⟨path, path ++ [".git"]⟩

/-- Config-reading part of `GitRepository.__init__`: `cf = repo_file(self,
"config")`; read it when it exists, else raise `Configuration file missing`
unless `force`. -/
def GitRepository_conf (fs : FS) (rv : Option Bytes → Option Int)
    (path : List String) (force : Bool) : Except GutError GitRepository :=
  match repo_file fs ⟨path, path ++ [".git"]⟩ ["config"] with
  | .error e => .error e
  | .ok (some cfp) =>
    if path_exists fs cfp then GitRepository_vers rv (fs.content cfp) path force
    else if force then .ok ⟨path, path ++ [".git"]⟩
    else .error .configMissing
  | .ok none =>
    if force then .ok ⟨path, path ++ [".git"]⟩
    else .error .configMissing

/-- `GitRepository(path, force)`: require `.git` to be a directory unless
forced, then read and validate the configuration. -/
def GitRepository_init (fs : FS) (rv : Option Bytes → Option Int)
    (path : List String) (force : Bool) : Except GutError GitRepository :=
  if force || fs.isDir (path ++ [".git"]) then GitRepository_conf fs rv path force
  else .error (.notAGitRepository path)

/-- `repo_find(path, required)` as a total function. Paths are already real
(component lists); `os.path.realpath(os.path.join(path, ".."))` is
`path.dropLast`, and the filesystem root is the fixpoint `dropLast path = path`. -/
def repo_find (fs : FS) (rv : Option Bytes → Option Int) (path : List String)
    (required : Bool) : Except GutError (Option GitRepository) :=
  if fs.isDir (path ++ [".git"]) then
    Except.map some (GitRepository_init fs rv path false)
  else if h : path.dropLast = path then
    if required then .error .noGitDirectory else .ok none
  else
    repo_find fs rv path.dropLast required
termination_by path.length
decreasing_by
  cases path with
  | nil => simp at h
  | cons a l => simp [List.length_dropLast]

/-- The literal recursion of the source, with explicit fuel: `none` means the
fuel ran out before the recursion returned. -/
def repo_find_fuel (fs : FS) (rv : Option Bytes → Option Int) :
    Nat → List String → Bool → Option (Except GutError (Option GitRepository))
  | 0, _, _ => none
  | fuel + 1, path, required =>
    if fs.isDir (path ++ [".git"]) then
      some (Except.map some (GitRepository_init fs rv path false))
    else if path.dropLast = path then
      if required then some (.error .noGitDirectory) else some (.ok none)
    else
      repo_find_fuel fs rv fuel path.dropLast required

/-! ## `object_write` (modelled from the spec) -/

/-- ASCII decimal digits of a natural number. -/
def asciiDecimal (n : Nat) : Bytes := strBytes (toString n)

/-- Byte tag of an object kind. -/
def kindTag : ObjKind → Bytes
  | .blob => strBytes "blob"
  | .tree => strBytes "tree"
  | .commit => strBytes "commit"
  | .tag => strBytes "tag"

/-- The canonical encoded stream `type-tag SPACE ascii-decimal-length NUL
payload` (spec section 4.1). -/
def object_encode (o : GitObjectV) : Bytes :=
  let data := gitobj_serialize o
  kindTag (objKind o) ++ 32 :: (asciiDecimal data.length ++ 0 :: data)

/-- Add a directory to the filesystem. -/
def FS.addDir (fs : FS) (p : List String) : FS := ⟨p :: fs.dirs, fs.files⟩

/-- Create a file with the given contents. -/
def FS.addFile (fs : FS) (p : List String) (c : Bytes) : FS :=
  ⟨fs.dirs, (p, c) :: fs.files⟩

/-- Modelled from the spec: `object_write` (`write_object`) is absent from
`libgut.py` as given. Per spec section 4.4: hash the encoded stream, store
the compressed bytes at `objects/<addr[0:2]>/<addr[2:]>` under the metadata
root, creating the fan-out directory; when the path already exists the write
is a successful no-op. `hash` abstracts the digest, `compress` abstracts
`zlib.compress`. -/
def object_write (hash : Bytes → String) (compress : Bytes → Bytes) (fs : FS)
    (repo : GitRepository) (o : GitObjectV) : String × FS :=
  let enc := object_encode o
  let sha := hash enc
  let path := repo.gitdir ++ ["objects", sha.take 2, sha.drop 2]
  if fs.isFile path then (sha, fs)
  else
    (sha, (fs.addDir (repo.gitdir ++ ["objects", sha.take 2])).addFile path (compress enc))

/-- Number of files stored at a path (a well-formed filesystem has at most
one). -/
def countPath (files : List (List String × Bytes)) (p : List String) : Nat :=
  (files.filter (fun q => q.1 = p)).length

/-! ## Concrete fixtures used by the witnesses -/

/-- A decompressed stream `blob 3\x00abc`. -/
def rawBlob3 : Bytes := strBytes "blob 3" ++ 0 :: strBytes "abc"

/-- A decompressed stream `blob 4\x00abc` whose declared length is wrong. -/
def rawBlob4 : Bytes := strBytes "blob 4" ++ 0 :: strBytes "abc"

/-- A decompressed stream `blub 3\x00abc` with an unrecognized type tag. -/
def rawBlub3 : Bytes := strBytes "blub 3" ++ 0 :: strBytes "abc"

/-- The repository used by the witnesses: gitdir `.git`. -/
def repoW : GitRepository := ⟨[], [".git"]⟩

/-- Filesystem holding `rawBlob3` at `.git/objects/aa/bb`. -/
def fsBlob3 : FS :=
  ⟨[[".git"], [".git", "objects"], [".git", "objects", "aa"]],
   [([".git", "objects", "aa", "bb"], rawBlob3)]⟩

/-- Filesystem holding the length-mismatched `rawBlob4` at `.git/objects/aa/bb`. -/
def fsBlob4 : FS :=
  ⟨[[".git"], [".git", "objects"], [".git", "objects", "aa"]],
   [([".git", "objects", "aa", "bb"], rawBlob4)]⟩

/-- Filesystem holding the unknown-tag `rawBlub3` at `.git/objects/aa/bb`. -/
def fsBlub3 : FS :=
  ⟨[[".git"], [".git", "objects"], [".git", "objects", "aa"]],
   [([".git", "objects", "aa", "bb"], rawBlub3)]⟩

/-- A decompressed stream `\xff 3\x00abc`: correct declared length but an
unrecognized type tag holding a byte ≥ 128. -/
def rawHighTag : Bytes := 255 :: (strBytes " 3" ++ 0 :: strBytes "abc")

/-- Filesystem holding `rawHighTag` at `.git/objects/aa/bb`. -/
def fsHighTag : FS :=
  ⟨[[".git"], [".git", "objects"], [".git", "objects", "aa"]],
   [([".git", "objects", "aa", "bb"], rawHighTag)]⟩

/-- Filesystem whose fan-out directory `.git/objects/aa` exists but holds no
file. -/
def fsEmptyFan : FS :=
  ⟨[[".git"], [".git", "objects"], [".git", "objects", "aa"]], []⟩

/-- Filesystem with an objects directory but no fan-out directory at all. -/
def fsNoFan : FS := ⟨[[".git"], [".git", "objects"]], []⟩

/-- Empty filesystem (no directories, no files) for the `repo_find` witness. -/
def fsBare : FS := ⟨[], []⟩

/-- A constant stand-in digest function for the `object_write` witness. -/
def hashW : Bytes → String := fun _ => "ccdd"

/-- A commit with two `parent` headers and a message containing a blank line. -/
def commitTwoParents : GitObjectV :=
  .commit
    [(strBytes "tree", strBytes "aaa"), (strBytes "parent", strBytes "p1"),
     (strBytes "parent", strBytes "p2"), (strBytes "author", strBytes "a b c")]
    (strBytes "subject" ++ 10 :: 10 :: strBytes "body")

/-- A commit with zero `parent` headers. -/
def commitNoParent : GitObjectV :=
  .commit [(strBytes "tree", strBytes "aaa")] (strBytes "m")

/-- A one-entry tree. -/
def treeOneEntry : GitObjectV :=
  .tree [⟨strBytes "100644", strBytes "a.txt", List.replicate 20 7⟩]

/-- A tag value. -/
def tagW : GitObjectV :=
  .tag [(strBytes "object", strBytes "abc"), (strBytes "type", strBytes "commit")]
    (strBytes "t")

/-! ## Helper lemmas -/

theorem findIdx_first_sep {l r : Bytes} {b : Nat} (h : ∀ c ∈ l, c ≠ b) :
    List.findIdx? (fun c => c = b) (l ++ b :: r) = some l.length := by
  rw [List.findIdx?_append]
  have hn : List.findIdx? (fun c => c = b) l = none :=
    List.findIdx?_eq_none_iff.mpr (fun x hx => by simp [h x hx])
  rw [hn, List.findIdx?_cons]
  simp

theorem findIdx_some_lt {p : Nat → Bool} {l : Bytes} {j : Nat}
    (h : List.findIdx? p l = some j) : j < l.length := by
  induction l generalizing j with
  | nil => simp [List.findIdx?_nil] at h
  | cons a as ih =>
    rw [List.findIdx?_cons] at h
    by_cases hp : p a
    · rw [if_pos hp] at h
      cases h
      simp
    · rw [if_neg hp, List.findIdx?_succ] at h
      cases h' : List.findIdx? p as with
      | none => rw [h'] at h; simp at h
      | some k =>
        rw [h'] at h
        simp at h
        have := ih h'
        simp
        omega

theorem pySliceNorm_int (len : Nat) (i : Int) :
    (pySliceNorm len i : Int) = max 0 (min (if i < 0 then (len : Int) + i else i) len) := by
  unfold pySliceNorm
  split <;> omega

theorem bytesFind_cases (l : Bytes) (b : Nat) (st : Int) :
    bytesFind l b st = -1 ∨
      (0 ≤ bytesFind l b st ∧ bytesFind l b st < (l.length : Int)) := by
  unfold bytesFind
  cases h : List.findIdx? (fun c => c = b) (l.drop (pySliceNorm l.length st)) with
  | none => exact Or.inl rfl
  | some j =>
    right
    have hj := findIdx_some_lt h
    rw [List.length_drop] at hj
    constructor
    · show (0 : Int) ≤ ((pySliceNorm l.length st + j : Nat) : Int)
      exact Int.natCast_nonneg _
    · show ((pySliceNorm l.length st + j : Nat) : Int) < (l.length : Int)
      exact_mod_cast (by omega : pySliceNorm l.length st + j < l.length)

theorem pySlice_length (l : Bytes) (a b : Int) :
    (pySlice l a b).length =
      min (pySliceNorm l.length b) l.length - pySliceNorm l.length a := by
  unfold pySlice
  rw [List.length_drop, List.length_take]

theorem pySliceFrom_length {l : Bytes} {y : Int} (h0 : -1 <= y)
    (h1 : y < (l.length : Int)) :
    ((pySliceFrom l (y + 1)).length : Int) = (l.length : Int) - y - 1 := by
  unfold pySliceFrom
  rw [pySlice_length]
  have hb := pySliceNorm_int l.length (l.length : Int)
  have ha := pySliceNorm_int l.length (y + 1)
  split at hb <;> split at ha <;> omega

theorem take_add_append (A R : List Nat) (m : Nat) :
    (A ++ R).take (A.length + m) = A ++ R.take m := by
  induction A with
  | nil => simp
  | cons a as ih => simp [List.take_cons, ih, Nat.succ_add]

theorem bytesFind_zero_sep {l r : Bytes} {b : Nat} (h : ∀ c ∈ l, c ≠ b) :
    bytesFind (l ++ b :: r) b 0 = (l.length : Int) := by
  unfold bytesFind
  have h0 : pySliceNorm (l ++ b :: r).length 0 = 0 := by
    unfold pySliceNorm
    simp
  rw [h0, List.drop_zero, findIdx_first_sep h]
  simp

theorem bytesFind_from_sep {A l r : Bytes} {b : Nat} (h : ∀ c ∈ l, c ≠ b) :
    bytesFind (A ++ (l ++ b :: r)) b (A.length : Int) =
      ((A.length + l.length : Nat) : Int) := by
  unfold bytesFind
  have hn : pySliceNorm (A ++ (l ++ b :: r)).length (A.length : Int) = A.length := by
    have := pySliceNorm_int (A ++ (l ++ b :: r)).length (A.length : Int)
    simp only [List.length_append] at this ⊢
    omega
  rw [hn, List.drop_left, findIdx_first_sep h]

theorem pySlice_middle (A B C : Bytes) :
    pySlice (A ++ (B ++ C)) (A.length : Int) ((A.length + B.length : Nat) : Int) =
      B := by
  unfold pySlice
  have hlen : (A ++ (B ++ C)).length = A.length + B.length + C.length := by
    simp [List.length_append]
    omega
  have hhi : pySliceNorm (A ++ (B ++ C)).length ((A.length + B.length : Nat) : Int) =
      A.length + B.length := by
    have := pySliceNorm_int (A ++ (B ++ C)).length ((A.length + B.length : Nat) : Int)
    omega
  have hlo : pySliceNorm (A ++ (B ++ C)).length (A.length : Int) = A.length := by
    have := pySliceNorm_int (A ++ (B ++ C)).length (A.length : Int)
    omega
  rw [hhi, hlo, take_add_append, List.take_left, List.drop_left]

theorem pySliceFrom_all_after (A R : Bytes) :
    pySliceFrom (A ++ R) (A.length : Int) = R := by
  unfold pySliceFrom pySlice
  have hhi : pySliceNorm (A ++ R).length ((A ++ R).length : Int) = (A ++ R).length := by
    have := pySliceNorm_int (A ++ R).length ((A ++ R).length : Int)
    omega
  have hlo : pySliceNorm (A ++ R).length (A.length : Int) = A.length := by
    have := pySliceNorm_int (A ++ R).length (A.length : Int)
    simp only [List.length_append] at this ⊢
    omega
  rw [hhi, hlo, List.take_length, List.drop_left]

theorem dropWhile_no_space {l : Bytes} (h : ∀ c ∈ l, isPySpace c = false) :
    List.dropWhile isPySpace l = l := by
  cases l with
  | nil => rfl
  | cons a as =>
    rw [List.dropWhile_cons, if_neg]
    simp [h a (List.mem_cons_self a as)]

theorem digit_not_space {c : Nat} (h48 : 48 ≤ c) (h57 : c ≤ 57) :
    isPySpace c = false := by
  unfold isPySpace
  simp
  omega

theorem pyInt_space_digits {ds : Bytes} (hne : ds ≠ [])
    (hd : ∀ c ∈ ds, 48 ≤ c ∧ c ≤ 57) :
    pyIntOfBytes (32 :: ds) = digitsVal ds := by
  have hnospace : ∀ c ∈ ds, isPySpace c = false := fun c hc =>
    digit_not_space (hd c hc).1 (hd c hc).2
  have hstrip : stripPySpaces (32 :: ds) = ds := by
    unfold stripPySpaces
    rw [List.dropWhile_cons, if_pos (by simp [isPySpace])]
    rw [dropWhile_no_space hnospace]
    rw [dropWhile_no_space (fun c hc => hnospace c (List.mem_reverse.mp hc))]
    exact List.reverse_reverse ds
  unfold pyIntOfBytes
  rw [if_neg, hstrip]
  · cases ds with
    | nil => exact absurd rfl hne
    | cons d ds =>
      have h1 := (hd d (List.mem_cons_self d ds)).1
      have h2 := (hd d (List.mem_cons_self d ds)).2
      have hd43 : d ≠ 43 := by omega
      have hd45 : d ≠ 45 := by omega
      simp [hd43, hd45]
  · simp only [List.any_cons, Bool.or_eq_true, not_or]
    constructor
    · simp
    · simp only [List.any_eq_true, not_exists, not_and]
      intro c hc
      have := (hd c hc).2
      simp
      omega

theorem GitObject_new_no_malformed (k : ObjKind) (d : Bytes) (s : String) :
    GitObject_new k d ≠ .error (.malformedObject s) := by
  cases k <;> simp only [GitObject_new] <;> (try split) <;> simp

theorem GitObject_new_no_valueError (k : ObjKind) (d : Bytes) :
    GitObject_new k d ≠ .error .valueErrorIntParse := by
  cases k <;> simp only [GitObject_new] <;> (try split) <;> simp

theorem object_read_stream_eq (raw : Bytes) (sha : String) :
    object_read_stream raw sha =
      match pyIntOfBytes (pySlice raw (bytesFind raw 32 0)
          (bytesFind raw 0 (bytesFind raw 32 0))) with
      | none => .error .valueErrorIntParse
      | some size =>
        if size ≠ (raw.length : Int) - (bytesFind raw 0 (bytesFind raw 32 0)) - 1 then
          .error (.malformedObject sha)
        else
          if pySlice raw 0 (bytesFind raw 32 0) = strBytes "commit" then
            GitObject_new .commit (pySliceFrom raw (bytesFind raw 0 (bytesFind raw 32 0) + 1))
          else if pySlice raw 0 (bytesFind raw 32 0) = strBytes "tree" then
            GitObject_new .tree (pySliceFrom raw (bytesFind raw 0 (bytesFind raw 32 0) + 1))
          else if pySlice raw 0 (bytesFind raw 32 0) = strBytes "tag" then
            GitObject_new .tag (pySliceFrom raw (bytesFind raw 0 (bytesFind raw 32 0) + 1))
          else if pySlice raw 0 (bytesFind raw 32 0) = strBytes "blob" then
            GitObject_new .blob (pySliceFrom raw (bytesFind raw 0 (bytesFind raw 32 0) + 1))
          else if (pySlice raw 0 (bytesFind raw 32 0)).any (fun c => 128 ≤ c) then
            .error .unicodeDecodeErrorFmt
          else
            .error (.unknownObjectType (pySlice raw 0 (bytesFind raw 32 0)) sha) := rfl

theorem object_read_content_eq (decomp : Bytes → Bytes) {fs : FS}
    {repo : GitRepository} {sha : String} {path : List String} {c : Bytes}
    (hpath : repo_file fs repo ["objects", sha.take 2, sha.drop 2] = .ok (some path))
    (hc : fs.content path = some c) :
    object_read decomp fs repo sha =
      Except.map some (object_read_stream (decomp c) sha) := by
  unfold object_read
  rw [hpath]
  simp only
  rw [hc]
  show (match object_read_stream (decomp c) sha with
        | Except.error e => Except.error e
        | Except.ok o => Except.ok (some o)) =
      Except.map some (object_read_stream (decomp c) sha)
  cases object_read_stream (decomp c) sha <;> rfl

theorem repo_file_objects {fs : FS} {repo : GitRepository} {s1 s2 : String}
    (hdir : fs.isDir (repo.gitdir ++ ["objects", s1]) = true) :
    repo_file fs repo ["objects", s1, s2] =
      .ok (some (repo.gitdir ++ ["objects", s1, s2])) := by
  unfold repo_file repo_dir
  have hdl : (["objects", s1, s2] : List String).dropLast = ["objects", s1] := rfl
  rw [hdl]
  simp only [repo_path, path_exists, hdir]
  simp

theorem sortEntries_of_ordered {es : List TreeEntry} (h : treeOrdered es = true) :
    sortEntries es = es := by
  induction es with
  | nil => rfl
  | cons e es ih =>
    cases es with
    | nil => rfl
    | cons f fs =>
      simp only [treeOrdered, Bool.and_eq_true] at h
      rw [sortEntries, ih h.2, insertEntry, if_pos h.1]

theorem pad6_of_valid {m : Bytes} (h : 6 ≤ m.length) : pad6 m = m := by
  unfold pad6
  rw [Nat.sub_eq_zero_of_le h]
  simp

theorem tree_parse_one_entry {e : TreeEntry} {rest : Bytes}
    (hv : entryValid e = true) :
    tree_parse_one (tree_serialize_entry e ++ rest) = some (e, rest) := by
  obtain ⟨mo, na, ad⟩ := e
  simp only [entryValid, Bool.and_eq_true, decide_eq_true_eq, List.all_eq_true,
    decide_eq_true_iff] at hv
  obtain ⟨⟨⟨hm, hns⟩, hnn⟩, haddr⟩ := hv
  have hser : tree_serialize_entry ⟨mo, na, ad⟩ ++ rest =
      mo ++ 32 :: (na ++ 0 :: (ad ++ rest)) := by
    unfold tree_serialize_entry
    rw [pad6_of_valid hm]
    simp
  rw [hser]
  unfold tree_parse_one
  have hns32 : ∀ c ∈ mo, c ≠ 32 := fun c hc => by
    intro hcc
    exact absurd hcc.symm.symm (by simpa using hns c hc)
  rw [findIdx_first_sep hns32]
  simp only
  rw [List.take_left]
  have hdrop1 : (mo ++ 32 :: (na ++ 0 :: (ad ++ rest))).drop (mo.length + 1) =
      na ++ 0 :: (ad ++ rest) := by
    have : mo ++ 32 :: (na ++ 0 :: (ad ++ rest)) =
        (mo ++ [32]) ++ (na ++ 0 :: (ad ++ rest)) := by simp
    rw [this]
    exact List.drop_left' (by simp)
  rw [hdrop1]
  have hnn0 : ∀ c ∈ na, c ≠ 0 := fun c hc => by simpa using hnn c hc
  rw [findIdx_first_sep hnn0]
  simp only
  rw [List.take_left]
  have hdrop2 : (na ++ 0 :: (ad ++ rest)).drop (na.length + 1) = ad ++ rest := by
    have : na ++ 0 :: (ad ++ rest) = (na ++ [0]) ++ (ad ++ rest) := by simp
    rw [this]
    exact List.drop_left' (by simp)
  rw [hdrop2]
  rw [if_neg (by simp [List.length_append, haddr])]
  rw [List.take_left' haddr, List.drop_left' haddr]

theorem tree_serialize_entry_ne_nil (e : TreeEntry) :
    tree_serialize_entry e ≠ [] := by
  unfold tree_serialize_entry
  simp

theorem tree_go_roundtrip (es : List TreeEntry) (fuel : Nat)
    (hv : es.all entryValid = true)
    (hf : (tree_serialize_entries es).length ≤ fuel) :
    tree_parse_go fuel (tree_serialize_entries es) = some es := by
  induction es generalizing fuel with
  | nil => cases fuel <;> simp [tree_parse_go, tree_serialize_entries]
  | cons e es ih =>
    simp only [List.all_cons, Bool.and_eq_true] at hv
    have hser : tree_serialize_entries (e :: es) =
        tree_serialize_entry e ++ tree_serialize_entries es := rfl
    have hlen1 : (tree_serialize_entry e).length ≠ 0 := by
      simpa [List.length_eq_zero] using tree_serialize_entry_ne_nil e
    have hne : tree_serialize_entry e ++ tree_serialize_entries es ≠ [] := by
      simp only [ne_eq, List.append_eq_nil, not_and]
      intro h1
      exact absurd h1 (tree_serialize_entry_ne_nil e)
    cases fuel with
    | zero =>
      exfalso
      rw [hser, List.length_append] at hf
      omega
    | succ f =>
      rw [hser]
      unfold tree_parse_go
      rw [if_neg hne, tree_parse_one_entry hv.1]
      have hfle : (tree_serialize_entries es).length ≤ f := by
        rw [hser, List.length_append] at hf
        omega
      simp only
      rw [ih f hv.2 hfle]
      rfl

theorem kvlm_go_roundtrip (hs : List (Bytes × Bytes)) (msg : Bytes) (fuel : Nat)
    (hv : hs.all kvValid = true)
    (hf : (kvlm_serialize hs msg).length < fuel) :
    kvlm_parse_go fuel (kvlm_serialize hs msg) = some (hs, msg) := by
  induction hs generalizing fuel with
  | nil =>
    cases fuel with
    | zero => omega
    | succ f =>
      unfold kvlm_parse_go
      rw [show kvlm_serialize [] msg = 10 :: msg from rfl]
      rw [List.findIdx?_cons]
      simp [kvlm_serialize]
  | cons kv hs ih =>
    obtain ⟨k, v⟩ := kv
    simp only [List.all_cons, Bool.and_eq_true] at hv
    obtain ⟨hkv, hrest⟩ := hv
    simp only [kvValid, Bool.and_eq_true, decide_eq_true_eq, List.all_eq_true] at hkv
    obtain ⟨⟨hkne, hk3210⟩, hv10⟩ := hkv
    have hline10 : ∀ c ∈ k ++ 32 :: v, c ≠ 10 := by
      intro c hc
      rcases List.mem_append.mp hc with h | h
      · exact fun hx => by
          have := hk3210 c h
          simp [hx] at this
      · rcases List.mem_cons.mp h with h' | h'
        · omega
        · exact fun hx => by
            have := hv10 c h'
            simp [hx] at this
    have hser : kvlm_serialize ((k, v) :: hs) msg =
        (k ++ 32 :: v) ++ 10 :: kvlm_serialize hs msg := by
      show k ++ 32 :: (v ++ 10 :: kvlm_serialize hs msg) = _
      simp
    cases fuel with
    | zero => omega
    | succ f =>
      rw [hser]
      unfold kvlm_parse_go
      rw [findIdx_first_sep hline10]
      simp only
      have hl0 : (k ++ 32 :: v).length ≠ 0 := by
        simp [List.length_append]
      rw [if_neg hl0, List.take_left]
      have hk32 : ∀ c ∈ k, c ≠ 32 := by
        intro c hc hx
        have := hk3210 c hc
        simp [hx] at this
      rw [findIdx_first_sep hk32]
      simp only
      rw [List.take_left]
      have hdropv : (k ++ 32 :: v).drop (k.length + 1) = v :=
        (by simp : k ++ 32 :: v = (k ++ [32]) ++ v) ▸ List.drop_left' (by simp)
      rw [hdropv]
      have hdroprest : ((k ++ 32 :: v) ++ 10 :: kvlm_serialize hs msg).drop
          ((k ++ 32 :: v).length + 1) = kvlm_serialize hs msg :=
        (by simp : (k ++ 32 :: v) ++ 10 :: kvlm_serialize hs msg =
          ((k ++ 32 :: v) ++ [10]) ++ kvlm_serialize hs msg) ▸
          List.drop_left' (by rw [List.length_append]; rfl)
      rw [hdroprest]
      have hflt : (kvlm_serialize hs msg).length < f := by
        rw [hser, List.length_append] at hf
        simp at hf
        omega
      rw [ih f hrest hflt]
      rfl

theorem kvlm_roundtrip (hs : List (Bytes × Bytes)) (msg : Bytes)
    (hv : hs.all kvValid = true) :
    kvlm_parse (kvlm_serialize hs msg) = some (hs, msg) :=
  kvlm_go_roundtrip hs msg _ hv (Nat.lt_succ_self _)

theorem tree_roundtrip (es : List TreeEntry)
    (hv : es.all entryValid = true) (ho : treeOrdered es = true) :
    tree_parse (tree_serialize es) = some es := by
  unfold tree_parse tree_serialize
  rw [sortEntries_of_ordered ho]
  exact tree_go_roundtrip es _ hv (le_refl _)

theorem countPath_zero {l : List (List String × Bytes)} {p : List String}
    (h : l.find? (fun q => q.1 = p) = none) : countPath l p = 0 := by
  unfold countPath
  rw [List.length_eq_zero, List.filter_eq_nil_iff]
  exact fun a ha => by simpa using List.find?_eq_none.mp h a ha

theorem countPath_pos {l : List (List String × Bytes)} {p : List String}
    (h : (l.find? (fun q => q.1 = p)).isSome = true) : 1 ≤ countPath l p := by
  obtain ⟨a, ha⟩ := Option.isSome_iff_exists.mp h
  have hpa := List.find?_some ha
  have hmem := List.mem_of_find?_eq_some ha
  unfold countPath
  have hma : a ∈ l.filter (fun q => q.1 = p) := List.mem_filter.mpr ⟨hmem, hpa⟩
  have := List.ne_nil_of_mem hma
  have := List.length_pos.mpr this
  omega

theorem repo_find_fuel_adequate (fs : FS) (rv : Option Bytes → Option Int)
    (required : Bool) :
    ∀ fuel (path : List String), path.length < fuel →
      repo_find_fuel fs rv fuel path required =
        some (repo_find fs rv path required) := by
  intro fuel
  induction fuel with
  | zero => intro path h; omega
  | succ f ih =>
    intro path h
    rw [repo_find]
    unfold repo_find_fuel
    by_cases h1 : fs.isDir (path ++ [".git"]) = true
    · simp [h1]
    · by_cases h2 : path.dropLast = path
      · simp only [h1, if_false, Bool.false_eq_true, h2, dif_pos, if_true]
        cases required <;> simp
      · simp only [h1, if_false, Bool.false_eq_true, h2, dif_neg, if_false]
        apply ih
        have hne : path ≠ [] := fun hnil => h2 (by simp [hnil])
        have h3 := List.length_dropLast path
        have h4 : 0 < path.length := List.length_pos.mpr hne
        omega

theorem repo_find_no_git (fs : FS) (rv : Option Bytes → Option Int)
    (required : Bool) :
    ∀ n (path : List String), path.length ≤ n →
      (∀ k < path.length + 1, fs.isDir (path.take k ++ [".git"]) = false) →
      repo_find fs rv path required =
        if required then .error .noGitDirectory else .ok none := by
  intro n
  induction n with
  | zero =>
    intro path hlen hno
    have hnil : path = [] := List.length_eq_zero.mp (Nat.le_zero.mp hlen)
    subst hnil
    rw [repo_find]
    have h0 := hno 0 (by omega)
    simp only [List.take_nil, List.nil_append] at h0
    rw [if_neg (by simp [h0])]
    simp
  | succ n ih =>
    intro path hlen hno
    rw [repo_find]
    have hofull := hno path.length (by omega)
    rw [List.take_length] at hofull
    rw [if_neg (by simp [hofull])]
    by_cases h2 : path.dropLast = path
    · rw [dif_pos h2]
    · rw [dif_neg h2]
      have hne : path ≠ [] := fun hnil => h2 (by simp [hnil])
      have h3 := List.length_dropLast path
      have h4 : 0 < path.length := List.length_pos.mpr hne
      apply ih
      · omega
      · intro k hk
        have htk : path.dropLast.take k = path.take k := by
          rw [List.dropLast_eq_take, List.take_take]
          congr 1
          omega
        rw [htk]
        exact hno k (by omega)

/-! ## Claim theorems -/

/-- Claim C3: for every address, `object_read` computes the storage location
`objects/<first-2-hex-chars>/<remaining-hex-chars>` under the repository's
metadata root (`sha[0:2]` then `sha[2:]`, no file extension) and decompresses
the bytes found there before decoding the header: whenever the fan-out
directory exists and that file holds bytes `c`, the result is exactly the
header-decode of `decomp c`. -/
theorem object_read_storage_location (decomp : Bytes → Bytes) (fs : FS)
    (repo : GitRepository) (sha : String) (c : Bytes)
    (hdir : fs.isDir (repo.gitdir ++ ["objects", sha.take 2]) = true)
    (hc : fs.content (repo.gitdir ++ ["objects", sha.take 2, sha.drop 2]) = some c) :
    object_read decomp fs repo sha =
      Except.map some (object_read_stream (decomp c) sha) :=
  object_read_content_eq decomp (repo_file_objects hdir) hc

/-- Claim C3 witness: concrete blob read at `.git/objects/aa/bb`. -/
theorem object_read_storage_location_witness :
    object_read id fsBlob3 repoW "aabb" =
      Except.map some (object_read_stream (id rawBlob3) "aabb") ∧
    object_read id fsBlob3 repoW "aabb" = .ok (some (.blob (strBytes "abc"))) :=
  ⟨object_read_storage_location id fsBlob3 repoW "aabb" rawBlob3 (by decide)
      (by decide),
   by decide⟩

/-- Claim C4 (code bug): probing an address whose fan-out directory
`objects/aa` does not exist does NOT return the recoverable not-found value:
`repo_file` returns `None` and `os.path.isfile(None)` raises a TypeError, so
`object_read` raises instead of reporting `ObjectNotFound`. -/
theorem object_read_missing_fanout_raises :
    object_read id fsNoFan repoW "aabb" = .error .typeErrorIsfileNone := by
  decide

/-- Claim C10: `object_read` returns its not-found value `None` only when the
fan-out directory `objects/<addr[0:2]>` exists while the object file does
not; when the fan-out directory is absent altogether, `repo_file` yields no
path and the `os.path.isfile` check is applied to that non-path (raising), so
the missing-directory and missing-file cases behave differently. -/
theorem object_read_fanout_asymmetry (decomp : Bytes → Bytes) (fs : FS)
    (repo : GitRepository) (sha : String) :
    (path_exists fs (repo.gitdir ++ ["objects", sha.take 2]) = false →
      object_read decomp fs repo sha = .error .typeErrorIsfileNone) ∧
    (fs.isDir (repo.gitdir ++ ["objects", sha.take 2]) = true →
      fs.content (repo.gitdir ++ ["objects", sha.take 2, sha.drop 2]) = none →
      object_read decomp fs repo sha = .ok none) ∧
    (object_read decomp fs repo sha = .ok none →
      fs.isDir (repo.gitdir ++ ["objects", sha.take 2]) = true ∧
      fs.content (repo.gitdir ++ ["objects", sha.take 2, sha.drop 2]) = none) := by
  refine ⟨?_, ?_, ?_⟩
  · intro habs
    unfold object_read repo_file repo_dir
    have hdl : (["objects", sha.take 2, sha.drop 2] : List String).dropLast =
        ["objects", sha.take 2] := rfl
    rw [hdl]
    simp only [repo_path, habs, if_false, Bool.false_eq_true]
  · intro hdir hnone
    rw [object_read, repo_file_objects hdir]
    simp only
    rw [hnone]
  · intro hok
    unfold object_read at hok
    rcases hrf : repo_file fs repo ["objects", sha.take 2, sha.drop 2] with e | op
    · rw [hrf] at hok
      simp at hok
    · rw [hrf] at hok
      cases op with
      | none => simp at hok
      | some path =>
        simp only at hok
        rcases hc : fs.content path with _ | c
        · unfold repo_file repo_dir at hrf
          have hdl : (["objects", sha.take 2, sha.drop 2] : List String).dropLast =
              ["objects", sha.take 2] := rfl
          rw [hdl] at hrf
          by_cases hex : path_exists fs (repo_path repo ["objects", sha.take 2]) = true
          · rw [if_pos hex] at hrf
            by_cases hd : fs.isDir (repo_path repo ["objects", sha.take 2]) = true
            · rw [if_pos hd] at hrf
              simp only [Except.ok.injEq, Option.some.injEq] at hrf
              subst hrf
              constructor
              · exact hd
              · simpa [repo_path] using hc
            · rw [if_neg hd] at hrf
              simp at hrf
          · rw [if_neg hex] at hrf
            simp at hrf
        · rw [hc] at hok
          change (match object_read_stream (decomp c) sha with
            | Except.error e => Except.error e
            | Except.ok o => Except.ok (some o)) = Except.ok none at hok
          rcases hst : object_read_stream (decomp c) sha with e | o <;>
            rw [hst] at hok <;> simp at hok

/-- Claim C10 witness: with the fan-out directory present and the file absent
the read returns `None`; with the fan-out directory absent it raises. -/
theorem object_read_fanout_asymmetry_witness :
    object_read id fsEmptyFan repoW "aabb" = .ok none ∧
    object_read id fsNoFan repoW "aacc" = .error .typeErrorIsfileNone :=
  ⟨(object_read_fanout_asymmetry id fsEmptyFan repoW "aabb").2.1 (by decide)
      (by decide),
   (object_read_fanout_asymmetry id fsNoFan repoW "aacc").1 (by decide)⟩

theorem map_some_eq_error {z : Except GutError GitObjectV} {e : GutError}
    (h : Except.map some z = .error e) : z = .error e := by
  cases z with
  | error a => simpa [Except.map] using h
  | ok a => simp [Except.map] at h

theorem object_read_stream_some {raw : Bytes} {sha : String} {size : Int}
    (hsize : pyIntOfBytes (pySlice raw (bytesFind raw 32 0)
        (bytesFind raw 0 (bytesFind raw 32 0))) = some size) :
    object_read_stream raw sha =
      if size ≠ (raw.length : Int) - bytesFind raw 0 (bytesFind raw 32 0) - 1 then
        .error (.malformedObject sha)
      else
        if pySlice raw 0 (bytesFind raw 32 0) = strBytes "commit" then
          GitObject_new .commit (pySliceFrom raw (bytesFind raw 0 (bytesFind raw 32 0) + 1))
        else if pySlice raw 0 (bytesFind raw 32 0) = strBytes "tree" then
          GitObject_new .tree (pySliceFrom raw (bytesFind raw 0 (bytesFind raw 32 0) + 1))
        else if pySlice raw 0 (bytesFind raw 32 0) = strBytes "tag" then
          GitObject_new .tag (pySliceFrom raw (bytesFind raw 0 (bytesFind raw 32 0) + 1))
        else if pySlice raw 0 (bytesFind raw 32 0) = strBytes "blob" then
          GitObject_new .blob (pySliceFrom raw (bytesFind raw 0 (bytesFind raw 32 0) + 1))
        else if (pySlice raw 0 (bytesFind raw 32 0)).any (fun c => 128 ≤ c) then
          .error .unicodeDecodeErrorFmt
        else
          .error (.unknownObjectType (pySlice raw 0 (bytesFind raw 32 0)) sha) := by
  rw [object_read_stream_eq, hsize]

/-- Claim C1: with the declared size parsed from the header, `object_read`
fails with the malformed-object error carrying the address exactly when the
declared length differs from `len(stream) - (index_of_NUL + 1)`; when they
agree no malformed-object error is raised. -/
theorem object_read_length_validation (decomp : Bytes → Bytes) (fs : FS)
    (repo : GitRepository) (sha : String) (path : List String) (c raw : Bytes)
    (x y size : Int)
    (hpath : repo_file fs repo ["objects", sha.take 2, sha.drop 2] = .ok (some path))
    (hc : fs.content path = some c)
    (hraw : raw = decomp c)
    (hx : x = bytesFind raw 32 0)
    (hy : y = bytesFind raw 0 x)
    (hsize : pyIntOfBytes (pySlice raw x y) = some size) :
    (size ≠ (raw.length : Int) - y - 1 →
      object_read decomp fs repo sha = .error (.malformedObject sha)) ∧
    (size = (raw.length : Int) - y - 1 →
      object_read decomp fs repo sha ≠ .error (.malformedObject sha)) := by
  subst hraw hx hy
  have hread := object_read_content_eq decomp hpath hc
  constructor
  · intro hne
    rw [hread, object_read_stream_some hsize, if_pos hne]
    rfl
  · intro heq
    rw [hread, object_read_stream_some hsize, if_neg (not_not_intro heq)]
    split_ifs <;> intro hcontra <;>
      first
      | exact GitObject_new_no_malformed _ _ _ (map_some_eq_error hcontra)
      | (have hz := map_some_eq_error hcontra; simp at hz)

/-- Claim C1 witness: the stream `blob 4\x00abc` declares length 4 but
carries 3 payload bytes, and the read fails with the malformed-object error
for address `aabb`. -/
theorem object_read_length_validation_witness :
    object_read id fsBlob4 repoW "aabb" = .error (.malformedObject "aabb") :=
  (object_read_length_validation id fsBlob4 repoW "aabb"
      [".git", "objects", "aa", "bb"] rawBlob4 rawBlob4 4 6 4
      (by decide) (by decide) rfl (by decide) (by decide) (by decide)).1
    (by decide)

/-- Claim C2 (amended): once the size check passes, an unrecognized type tag
whose bytes are all ASCII-decodable (< 128) yields the unknown-object-type
error with the address; an unrecognized tag holding a byte ≥ 128 instead
raises the UnicodeDecodeError coming from `fmt.decode("ascii")` inside the
f-string of the raise, which carries no address; and each of the four
recognized tags dispatches to the matching variant constructor applied to
the bytes after the NUL. -/
theorem object_read_type_dispatch (decomp : Bytes → Bytes) (fs : FS)
    (repo : GitRepository) (sha : String) (path : List String) (c raw : Bytes)
    (x y size : Int) (fmt : Bytes)
    (hpath : repo_file fs repo ["objects", sha.take 2, sha.drop 2] = .ok (some path))
    (hc : fs.content path = some c)
    (hraw : raw = decomp c)
    (hx : x = bytesFind raw 32 0)
    (hy : y = bytesFind raw 0 x)
    (hfmt : fmt = pySlice raw 0 x)
    (hsize : pyIntOfBytes (pySlice raw x y) = some size)
    (hok : size = (raw.length : Int) - y - 1) :
    (fmt ≠ strBytes "commit" → fmt ≠ strBytes "tree" → fmt ≠ strBytes "tag" →
      fmt ≠ strBytes "blob" → fmt.any (fun b => 128 ≤ b) = false →
      object_read decomp fs repo sha = .error (.unknownObjectType fmt sha)) ∧
    (fmt ≠ strBytes "commit" → fmt ≠ strBytes "tree" → fmt ≠ strBytes "tag" →
      fmt ≠ strBytes "blob" → fmt.any (fun b => 128 ≤ b) = true →
      object_read decomp fs repo sha = .error .unicodeDecodeErrorFmt) ∧
    (fmt = strBytes "commit" →
      object_read decomp fs repo sha =
        Except.map some (GitObject_new .commit (pySliceFrom raw (y + 1)))) ∧
    (fmt = strBytes "tree" →
      object_read decomp fs repo sha =
        Except.map some (GitObject_new .tree (pySliceFrom raw (y + 1)))) ∧
    (fmt = strBytes "tag" →
      object_read decomp fs repo sha =
        Except.map some (GitObject_new .tag (pySliceFrom raw (y + 1)))) ∧
    (fmt = strBytes "blob" →
      object_read decomp fs repo sha =
        Except.map some (GitObject_new .blob (pySliceFrom raw (y + 1)))) := by
  subst hraw hx hy hfmt
  have hread := object_read_content_eq decomp hpath hc
  refine ⟨?_, ?_, ?_, ?_, ?_, ?_⟩
  · intro h1 h2 h3 h4 hasc
    rw [hread, object_read_stream_some hsize, if_neg (not_not_intro hok),
      if_neg h1, if_neg h2, if_neg h3, if_neg h4, if_neg (by simp [hasc])]
    rfl
  · intro h1 h2 h3 h4 hasc
    rw [hread, object_read_stream_some hsize, if_neg (not_not_intro hok),
      if_neg h1, if_neg h2, if_neg h3, if_neg h4, if_pos hasc]
    rfl
  · intro h1
    rw [hread, object_read_stream_some hsize, if_neg (not_not_intro hok), if_pos h1]
  · intro h2
    rw [hread, object_read_stream_some hsize, if_neg (not_not_intro hok), h2,
      if_neg (by decide), if_pos rfl]
  · intro h3
    rw [hread, object_read_stream_some hsize, if_neg (not_not_intro hok), h3,
      if_neg (by decide), if_neg (by decide), if_pos rfl]
  · intro h4
    rw [hread, object_read_stream_some hsize, if_neg (not_not_intro hok), h4,
      if_neg (by decide), if_neg (by decide), if_neg (by decide), if_pos rfl]

/-- Claim C2 witness: the tag `blub` is rejected with the unknown-object-type
error for the address, while the tag `blob` dispatches to the blob
constructor on the bytes after the NUL. -/
theorem object_read_type_dispatch_witness :
    object_read id fsBlub3 repoW "aabb" =
      .error (.unknownObjectType (strBytes "blub") "aabb") ∧
    object_read id fsHighTag repoW "aabb" = .error .unicodeDecodeErrorFmt ∧
    object_read id fsBlob3 repoW "aabb" =
      Except.map some (GitObject_new .blob (pySliceFrom rawBlob3 (6 + 1))) :=
  ⟨by
    have h := (object_read_type_dispatch id fsBlub3 repoW "aabb"
        [".git", "objects", "aa", "bb"] rawBlub3 rawBlub3 4 6 3 (strBytes "blub")
        (by decide) (by decide) rfl (by decide) (by decide) (by decide)
        (by decide) (by decide)).1
      (by decide) (by decide) (by decide) (by decide) (by decide)
    exact h,
   by
    have h := (object_read_type_dispatch id fsHighTag repoW "aabb"
        [".git", "objects", "aa", "bb"] rawHighTag rawHighTag 1 3 3 [255]
        (by decide) (by decide) rfl (by decide) (by decide) (by decide)
        (by decide) (by decide)).2.1
      (by decide) (by decide) (by decide) (by decide) (by decide)
    exact h,
   (object_read_type_dispatch id fsBlob3 repoW "aabb"
        [".git", "objects", "aa", "bb"] rawBlob3 rawBlob3 4 6 3 (strBytes "blob")
        (by decide) (by decide) rfl (by decide) (by decide) (by decide)
        (by decide) (by decide)).2.2.2.2.2 rfl⟩

/-- Claim C2 counterexample: for the stored stream `\xff 3\x00abc` the type
tag is none of the four recognized ones, yet `object_read` does not fail with
the unknown-object-type error carrying the address: the f-string of the raise
evaluates `fmt.decode("ascii")` first, which raises a UnicodeDecodeError
without the address. -/
theorem object_read_type_dispatch_counterexample :
    object_read id fsHighTag repoW "aabb" = .error .unicodeDecodeErrorFmt ∧
    object_read id fsHighTag repoW "aabb" ≠
      .error (.unknownObjectType [255] "aabb") :=
  ⟨by decide, by decide⟩

theorem map_some_eq_ok {z : Except GutError GitObjectV} {o : GitObjectV}
    (h : Except.map some z = .ok (some o)) : z = .ok o := by
  cases z with
  | error a => simp [Except.map] at h
  | ok a =>
    simp [Except.map] at h
    rw [h]

/-- Claim C8: whenever `object_read` succeeds in returning an object, the
byte string handed to the selected variant's constructor is exactly the
suffix of the decompressed stream after the first NUL (`raw[y+1:]`), and its
length equals the declared length parsed from the header. -/
theorem object_read_payload_exact (decomp : Bytes → Bytes) (fs : FS)
    (repo : GitRepository) (sha : String) (path : List String) (c raw : Bytes)
    (x y : Int) (o : GitObjectV)
    (hpath : repo_file fs repo ["objects", sha.take 2, sha.drop 2] = .ok (some path))
    (hc : fs.content path = some c)
    (hraw : raw = decomp c)
    (hx : x = bytesFind raw 32 0)
    (hy : y = bytesFind raw 0 x)
    (hok : object_read decomp fs repo sha = .ok (some o)) :
    (∃ k, GitObject_new k (pySliceFrom raw (y + 1)) = .ok o) ∧
    pyIntOfBytes (pySlice raw x y) =
      some ((pySliceFrom raw (y + 1)).length : Int) := by
  subst hraw hx hy
  have hread := object_read_content_eq decomp hpath hc
  rw [hread] at hok
  rcases hp : pyIntOfBytes (pySlice (decomp c) (bytesFind (decomp c) 32 0)
      (bytesFind (decomp c) 0 (bytesFind (decomp c) 32 0))) with _ | size
  · rw [object_read_stream_eq, hp] at hok
    simp [Except.map] at hok
  · rw [object_read_stream_some hp] at hok
    by_cases hif : size ≠ (((decomp c).length : Int) -
        bytesFind (decomp c) 0 (bytesFind (decomp c) 32 0) - 1)
    · rw [if_pos hif] at hok
      simp [Except.map] at hok
    · rw [if_neg hif] at hok
      push_neg at hif
      constructor
      · split_ifs at hok with h1 h2 h3 h4 h5
        · exact ⟨.commit, map_some_eq_ok hok⟩
        · exact ⟨.tree, map_some_eq_ok hok⟩
        · exact ⟨.tag, map_some_eq_ok hok⟩
        · exact ⟨.blob, map_some_eq_ok hok⟩
        · simp [Except.map] at hok
        · simp [Except.map] at hok
      · have hyc := bytesFind_cases (decomp c) 0 (bytesFind (decomp c) 32 0)
        have hlen : ((pySliceFrom (decomp c)
            (bytesFind (decomp c) 0 (bytesFind (decomp c) 32 0) + 1)).length : Int) =
            ((decomp c).length : Int) -
              bytesFind (decomp c) 0 (bytesFind (decomp c) 32 0) - 1 := by
          rcases hyc with h | ⟨hy1, hy2⟩
          · rw [h]
            apply pySliceFrom_length
            · omega
            · have : (0 : Int) ≤ ((decomp c).length : Int) := Int.natCast_nonneg _
              omega
          · exact pySliceFrom_length (by omega) hy2
        rw [hlen]
        exact congrArg some hif

/-- Claim C8 witness: for the stored `blob 3\x00abc` the payload handed to
the blob constructor is the 3-byte suffix after the NUL and the parsed size
equals its length. -/
theorem object_read_payload_exact_witness :
    (∃ k, GitObject_new k (pySliceFrom rawBlob3 (6 + 1)) =
      .ok (.blob (strBytes "abc"))) ∧
    pyIntOfBytes (pySlice rawBlob3 4 6) =
      some ((pySliceFrom rawBlob3 (6 + 1)).length : Int) :=
  object_read_payload_exact id fsBlob3 repoW "aabb"
    [".git", "objects", "aa", "bb"] rawBlob3 rawBlob3 4 6 (.blob (strBytes "abc"))
    (by decide) (by decide) rfl (by decide) (by decide) (by decide)

/-- Claim C9: for a well-formed stream `tag SPACE digits NUL payload` with the
digits spelling the payload length, the integer parse of the length field
succeeds and yields that number even though the parsed slice `raw[x:y]`
begins at the separating space byte (its value is `32 :: digits`): Python
`int` tolerates the leading whitespace, so `object_read` does not fail with a
ValueError there. -/
theorem object_read_size_slice_includes_space (tag ds payload : Bytes)
    (sha : String)
    (htag : ∀ c ∈ tag, c ≠ 32)
    (hne : ds ≠ [])
    (hd : ∀ c ∈ ds, 48 ≤ c ∧ c ≤ 57)
    (hval : digitsVal ds = some ((payload.length : Nat) : Int)) :
    bytesFind (tag ++ 32 :: (ds ++ 0 :: payload)) 32 0 = (tag.length : Int) ∧
    pySlice (tag ++ 32 :: (ds ++ 0 :: payload)) (tag.length : Int)
      (bytesFind (tag ++ 32 :: (ds ++ 0 :: payload)) 0 (tag.length : Int)) =
      32 :: ds ∧
    pyIntOfBytes (pySlice (tag ++ 32 :: (ds ++ 0 :: payload)) (tag.length : Int)
      (bytesFind (tag ++ 32 :: (ds ++ 0 :: payload)) 0 (tag.length : Int))) =
      some ((payload.length : Nat) : Int) ∧
    object_read_stream (tag ++ 32 :: (ds ++ 0 :: payload)) sha ≠
      .error .valueErrorIntParse := by
  have hx : bytesFind (tag ++ 32 :: (ds ++ 0 :: payload)) 32 0 =
      (tag.length : Int) := bytesFind_zero_sep htag
  have hshape : tag ++ 32 :: (ds ++ 0 :: payload) =
      tag ++ ((32 :: ds) ++ 0 :: payload) := by simp
  have hno0 : ∀ c ∈ (32 :: ds), c ≠ 0 := by
    intro c hc
    rcases List.mem_cons.mp hc with h | h
    · omega
    · have := (hd c h).1
      omega
  have hy : bytesFind (tag ++ 32 :: (ds ++ 0 :: payload)) 0 (tag.length : Int) =
      ((tag.length + (32 :: ds).length : Nat) : Int) := by
    rw [hshape]
    exact bytesFind_from_sep hno0
  have hslice : pySlice (tag ++ 32 :: (ds ++ 0 :: payload)) (tag.length : Int)
      (bytesFind (tag ++ 32 :: (ds ++ 0 :: payload)) 0 (tag.length : Int)) =
      32 :: ds := by
    rw [hy, hshape]
    exact pySlice_middle tag (32 :: ds) (0 :: payload)
  have hparse : pyIntOfBytes (32 :: ds) = some ((payload.length : Nat) : Int) := by
    rw [pyInt_space_digits hne hd, hval]
  refine ⟨hx, hslice, by rw [hslice]; exact hparse, ?_⟩
  have hsize : pyIntOfBytes
      (pySlice (tag ++ 32 :: (ds ++ 0 :: payload))
        (bytesFind (tag ++ 32 :: (ds ++ 0 :: payload)) 32 0)
        (bytesFind (tag ++ 32 :: (ds ++ 0 :: payload)) 0
          (bytesFind (tag ++ 32 :: (ds ++ 0 :: payload)) 32 0))) =
      some ((payload.length : Nat) : Int) := by
    rw [hx, hslice]
    exact hparse
  rw [object_read_stream_some hsize]
  split_ifs <;> simp [GitObject_new_no_valueError]

/-- Claim C9 witness: the stream `blob 3\x00abc` where the parsed slice is
`" 3"` (space then the digit). -/
theorem object_read_size_slice_includes_space_witness :
    bytesFind rawBlob3 32 0 = ((strBytes "blob").length : Int) ∧
    pySlice rawBlob3 ((strBytes "blob").length : Int)
      (bytesFind rawBlob3 0 ((strBytes "blob").length : Int)) = 32 :: strBytes "3" ∧
    pyIntOfBytes (pySlice rawBlob3 ((strBytes "blob").length : Int)
      (bytesFind rawBlob3 0 ((strBytes "blob").length : Int))) =
      some (((strBytes "abc").length : Nat) : Int) ∧
    object_read_stream rawBlob3 "aabb" ≠ .error .valueErrorIntParse :=
  object_read_size_slice_includes_space (strBytes "blob") (strBytes "3")
    (strBytes "abc") "aabb" (by decide) (by decide) (by decide) (by decide)

/-- Claim C5: for every canonical well-formed value of each variant (blob,
tree, commit, tag), parsing the bytes produced by serialization yields a
value observably equal to the original: `parse(serialize(x)) = x`, including
the empty blob, the empty tree, commits with zero or several `parent`
headers, and messages containing blank lines. The codecs are modelled from
the spec; `gitobj_valid` states the canonical-form side conditions the spec
imposes (sorted tree entries, 6-character space-free modes, NUL-free names,
20-byte addresses, nonempty space-free header keys, newline-free values). -/
theorem gitobj_roundtrip (o : GitObjectV) (hv : gitobj_valid o = true) :
    GitObject_new (objKind o) (gitobj_serialize o) = .ok o := by
  cases o with
  | blob d => rfl
  | tree es =>
    simp only [gitobj_valid, Bool.and_eq_true] at hv
    show (match tree_parse (tree_serialize es) with
      | some es => Except.ok (GitObjectV.tree es)
      | none => Except.error GutError.truncatedTree) = .ok (.tree es)
    rw [tree_roundtrip es hv.1 hv.2]
  | commit hs m =>
    simp only [gitobj_valid] at hv
    show (match kvlm_parse (kvlm_serialize hs m) with
      | some r => Except.ok (GitObjectV.commit r.1 r.2)
      | none => Except.error GutError.kvlmMalformed) = .ok (.commit hs m)
    rw [kvlm_roundtrip hs m hv]
  | tag hs m =>
    simp only [gitobj_valid] at hv
    show (match kvlm_parse (kvlm_serialize hs m) with
      | some r => Except.ok (GitObjectV.tag r.1 r.2)
      | none => Except.error GutError.kvlmMalformed) = .ok (.tag hs m)
    rw [kvlm_roundtrip hs m hv]

/-- Claim C5 witness: the round-trip law at the listed edge cases — empty
blob, tree with zero entries, a one-entry tree, a commit with zero `parent`
headers, a commit with two `parent` headers and a message containing a blank
line, and a tag. -/
theorem gitobj_roundtrip_witness :
    (gitobj_valid (.blob []) = true ∧
      GitObject_new .blob (gitobj_serialize (.blob [])) = .ok (.blob [])) ∧
    (gitobj_valid (.tree []) = true ∧
      GitObject_new .tree (gitobj_serialize (.tree [])) = .ok (.tree [])) ∧
    (gitobj_valid treeOneEntry = true ∧
      GitObject_new .tree (gitobj_serialize treeOneEntry) = .ok treeOneEntry) ∧
    (gitobj_valid commitNoParent = true ∧
      GitObject_new .commit (gitobj_serialize commitNoParent) = .ok commitNoParent) ∧
    (gitobj_valid commitTwoParents = true ∧
      GitObject_new .commit (gitobj_serialize commitTwoParents) =
        .ok commitTwoParents) ∧
    (gitobj_valid tagW = true ∧
      GitObject_new .tag (gitobj_serialize tagW) = .ok tagW) :=
  ⟨⟨by decide, gitobj_roundtrip (.blob []) (by decide)⟩,
   ⟨by decide, gitobj_roundtrip (.tree []) (by decide)⟩,
   ⟨by decide, gitobj_roundtrip treeOneEntry (by decide)⟩,
   ⟨by decide, gitobj_roundtrip commitNoParent (by decide)⟩,
   ⟨by decide, gitobj_roundtrip commitTwoParents (by decide)⟩,
   ⟨by decide, gitobj_roundtrip tagW (by decide)⟩⟩

theorem isFile_iff_find (fs : FS) (p : List String) :
    fs.isFile p = (fs.files.find? (fun q => q.1 = p)).isSome := by
  unfold FS.isFile FS.content
  cases fs.files.find? (fun q => q.1 = p) <;> rfl

theorem object_write_eq (hash : Bytes → String) (compress : Bytes → Bytes)
    (fs : FS) (repo : GitRepository) (o : GitObjectV) :
    object_write hash compress fs repo o =
      if fs.isFile (repo.gitdir ++ ["objects", (hash (object_encode o)).take 2,
          (hash (object_encode o)).drop 2]) then
        (hash (object_encode o), fs)
      else
        (hash (object_encode o),
          (fs.addDir (repo.gitdir ++ ["objects",
            (hash (object_encode o)).take 2])).addFile
            (repo.gitdir ++ ["objects", (hash (object_encode o)).take 2,
              (hash (object_encode o)).drop 2]) (compress (object_encode o))) := rfl

/-- Claim C6: writing an object whose content-addressed file already exists
is a successful no-op — calling `object_write` twice with equal objects
returns the same address both times, the second call leaves the filesystem
unchanged, and exactly one file is stored at the object's path. The write
path is modelled from the spec (`object_write` is absent from `libgut.py`);
the hypothesis states that the starting filesystem is well-formed (no
duplicate file entries at the object's path). -/
theorem object_write_idempotent (hash : Bytes → String)
    (compress : Bytes → Bytes) (fs : FS) (repo : GitRepository) (o : GitObjectV)
    (hwf : countPath fs.files (repo.gitdir ++ ["objects",
      (hash (object_encode o)).take 2, (hash (object_encode o)).drop 2]) ≤ 1) :
    (object_write hash compress (object_write hash compress fs repo o).2 repo o).1 =
      (object_write hash compress fs repo o).1 ∧
    (object_write hash compress (object_write hash compress fs repo o).2 repo o).2 =
      (object_write hash compress fs repo o).2 ∧
    countPath (object_write hash compress fs repo o).2.files
      (repo.gitdir ++ ["objects", (hash (object_encode o)).take 2,
        (hash (object_encode o)).drop 2]) = 1 := by
  by_cases hf : fs.isFile (repo.gitdir ++ ["objects",
      (hash (object_encode o)).take 2, (hash (object_encode o)).drop 2]) = true
  · have h1 : object_write hash compress fs repo o = (hash (object_encode o), fs) := by
      rw [object_write_eq, if_pos hf]
    rw [h1]
    have h2 : object_write hash compress fs repo o = (hash (object_encode o), fs) := h1
    rw [object_write_eq, if_pos hf]
    refine ⟨rfl, rfl, ?_⟩
    have hsome : (fs.files.find? (fun q => q.1 = (repo.gitdir ++ ["objects",
        (hash (object_encode o)).take 2,
        (hash (object_encode o)).drop 2]))).isSome = true := by
      rw [← isFile_iff_find]
      exact hf
    have := countPath_pos hsome
    show countPath fs.files (repo.gitdir ++ ["objects",
      (hash (object_encode o)).take 2, (hash (object_encode o)).drop 2]) = 1
    omega
  · have hff : fs.isFile (repo.gitdir ++ ["objects",
        (hash (object_encode o)).take 2,
        (hash (object_encode o)).drop 2]) = false := by
      simpa using hf
    have h1 : object_write hash compress fs repo o =
        (hash (object_encode o),
          (fs.addDir (repo.gitdir ++ ["objects",
            (hash (object_encode o)).take 2])).addFile
            (repo.gitdir ++ ["objects", (hash (object_encode o)).take 2,
              (hash (object_encode o)).drop 2]) (compress (object_encode o))) := by
      rw [object_write_eq, if_neg (by simp [hff])]
    rw [h1]
    have hf1 : ((fs.addDir (repo.gitdir ++ ["objects",
        (hash (object_encode o)).take 2])).addFile
          (repo.gitdir ++ ["objects", (hash (object_encode o)).take 2,
            (hash (object_encode o)).drop 2])
          (compress (object_encode o))).isFile
        (repo.gitdir ++ ["objects", (hash (object_encode o)).take 2,
          (hash (object_encode o)).drop 2]) = true := by
      rw [isFile_iff_find]
      show (List.find? _ (((repo.gitdir ++ ["objects",
        (hash (object_encode o)).take 2, (hash (object_encode o)).drop 2]),
        compress (object_encode o)) :: fs.files)).isSome = true
      rw [List.find?_cons_of_pos _ (by simp)]
      rfl
    rw [object_write_eq, if_pos hf1]
    refine ⟨rfl, rfl, ?_⟩
    have h0 : countPath fs.files (repo.gitdir ++ ["objects",
        (hash (object_encode o)).take 2, (hash (object_encode o)).drop 2]) = 0 := by
      apply countPath_zero
      have := isFile_iff_find fs (repo.gitdir ++ ["objects",
        (hash (object_encode o)).take 2, (hash (object_encode o)).drop 2])
      rw [hff] at this
      exact Option.not_isSome_iff_eq_none.mp (by rw [← this]; simp)
    show countPath (((repo.gitdir ++ ["objects",
      (hash (object_encode o)).take 2, (hash (object_encode o)).drop 2]),
      compress (object_encode o)) :: fs.files) _ = 1
    unfold countPath at h0 ⊢
    rw [List.filter_cons_of_pos (by simp)]
    simp only [List.length_cons]
    omega

/-- Claim C6 witness: a blob written twice into an empty repository with a
stand-in digest function. -/
theorem object_write_idempotent_witness :
    (object_write hashW id (object_write hashW id fsNoFan repoW
        (.blob (strBytes "hi"))).2 repoW (.blob (strBytes "hi"))).1 =
      (object_write hashW id fsNoFan repoW (.blob (strBytes "hi"))).1 ∧
    (object_write hashW id (object_write hashW id fsNoFan repoW
        (.blob (strBytes "hi"))).2 repoW (.blob (strBytes "hi"))).2 =
      (object_write hashW id fsNoFan repoW (.blob (strBytes "hi"))).2 ∧
    countPath (object_write hashW id fsNoFan repoW
        (.blob (strBytes "hi"))).2.files
      (repoW.gitdir ++ ["objects", (hashW (object_encode
        (.blob (strBytes "hi")))).take 2,
        (hashW (object_encode (.blob (strBytes "hi")))).drop 2]) = 1 :=
  object_write_idempotent hashW id fsNoFan repoW (.blob (strBytes "hi"))
    (by decide)

/-- Claim C7: the upward repository search terminates for every starting
path — with fuel `path.length + 1` the literal recursion of the source
returns, and its value is the total function `repo_find`; when a `.git`
directory is at the start the repository constructed there is returned, and
when no ancestor prefix carries a `.git` directory the search reaches the
filesystem root (`dropLast path = path`) and raises exactly when `required`,
returning no repository otherwise. -/
theorem repo_find_upward_search (fs : FS) (rv : Option Bytes → Option Int)
    (path : List String) (required : Bool) :
    repo_find_fuel fs rv (path.length + 1) path required =
      some (repo_find fs rv path required) ∧
    (fs.isDir (path ++ [".git"]) = true →
      repo_find fs rv path required =
        Except.map some (GitRepository_init fs rv path false)) ∧
    ((∀ k < path.length + 1, fs.isDir (path.take k ++ [".git"]) = false) →
      repo_find fs rv path required =
        if required then .error .noGitDirectory else .ok none) := by
  refine ⟨repo_find_fuel_adequate fs rv required _ path (Nat.lt_succ_self _),
    ?_, ?_⟩
  · intro h
    rw [repo_find, if_pos h]
  · intro h
    exact repo_find_no_git fs rv required path.length path (le_refl _) h

/-- Claim C7 witness: from the path `a` on an empty filesystem with
`required=False`, two units of fuel suffice and the search returns no
repository. -/
theorem repo_find_upward_search_witness :
    repo_find_fuel fsBare (fun _ => some 0) 2 ["a"] false = some (.ok none) := by
  have h1 := (repo_find_upward_search fsBare (fun _ => some 0) ["a"] false).1
  have h3 := (repo_find_upward_search fsBare (fun _ => some 0) ["a"] false).2.2
    (by decide)
  have h2 : repo_find_fuel fsBare (fun _ => some 0) 2 ["a"] false =
      some (repo_find fsBare (fun _ => some 0) ["a"] false) := h1
  rw [h2, h3]
  rfl
